import Mathlib

/- Verification of the symbol-graph and indexing engine of an UnrealScript
   language service, shallowly embedded from its TypeScript sources:
   the children-chain operations and scope lookup of `UCStructSymbol`,
   the state override linking of `UCStateSymbol.index`, the type-reference
   dispatch of `UCObjectTypeSymbol.index`, the structural builder's enum
   member loop, the reference-index invalidation protocol of
   `UCDocument.invalidate`, the analyzer pass, the statement-block context
   reset of `UCBlock.index`, and the rename-preparation validation of the
   protocol layer. -/

set_option maxHeartbeats 1000000

/-! ## Interned names

The Name Table interns identifiers case-insensitively while preserving the
original casing for display; symbols compare interned handles.  An interned
name is modelled by its normalized (lower-cased) text, so that two spellings
of the same identifier compare equal. -/

abbrev UCName := String

def lowerChar (c : Char) : Char :=
  if c ≥ 'A' && c ≤ 'Z' then Char.ofNat (c.toNat + 32) else c

def toName (text : String) : UCName := String.mk (text.data.map lowerChar)

/-! ## Field symbols

A field symbol (`UCFieldSymbol`) as needed by the lookups and chain
operations below: `sid` stands for JavaScript object identity, `kind` drives
the `instanceof` tests of the source, `typeFlags` is the bitmask returned by
`getTypeFlags()`, and `isType` is the `UCFieldSymbol.isType()` capability
consulted by the generic type hint.  Packages are not `UCFieldSymbol`s; every
other modelled kind is. -/

inductive SymKind where
  | packageSym
  | classSym
  | stateSym
  | methodSym
  | propertySym
  | enumSym
  | scriptStructSym
  | enumMemberSym
deriving DecidableEq, Repr

def SymKind.isFieldSymbol : SymKind → Bool
  | .packageSym => false
  | _ => true

structure FieldSym where
  sid : Nat
  name : UCName
  kind : SymKind
  typeFlags : Nat
  isType : Bool
deriving DecidableEq, Repr

/-! ## Children chain of `UCStructSymbol`

The source keeps the children of a struct-like symbol as a singly-linked
chain through a mutable `next` field; the chain is modelled as a list, head
first.  `addSymbol` does `symbol.next = this.children; this.children =
symbol` (head insertion); the `outer`/`containingStruct` back-references it
also sets are not part of the chain.  `removeSymbol` unlinks: if the head is
the symbol, the chain becomes `symbol.next`; otherwise it scans for the
first child whose `next` is the symbol and splices it out.  Object identity
(`===`) is modelled by comparing `sid`. -/

def addSymbol (children : List FieldSym) (symbol : FieldSym) : List FieldSym :=
  symbol :: children

def removeSymbolScan : List FieldSym → FieldSym → List FieldSym
  | [], _ => []
  | child :: rest, symbol =>
    if child.sid = symbol.sid then rest else child :: removeSymbolScan rest symbol

def removeSymbol (children : List FieldSym) (symbol : FieldSym) : List FieldSym :=
  match children with
  | [] => []
  | child :: rest =>
    if child.sid = symbol.sid then rest
    else child :: removeSymbolScan rest symbol

/-- Adding a list of declarations in declaration order (each via
`addSymbol`), as the structural builder does while walking a scope. -/
def addAll (children : List FieldSym) (decls : List FieldSym) : List FieldSym :=
  decls.foldl addSymbol children

/-! ## Scope lookup

`UCStructSymbol.getSymbol(id, kind?)` scans the children chain; a child with
a matching name but whose `getTypeFlags()` misses the requested kind mask is
skipped and the scan continues.  `UCStructSymbol.findSuperSymbol(id, kind?)`
is `getSymbol(id, kind) ?? super?.findSuperSymbol(id, kind)`.  A struct
together with its resolved `super` chain is represented by the list of the
children chains of each level, the struct's own children first; the
recursion of the source then becomes a scan over that list of scopes. -/

def getSymbol : List FieldSym → UCName → Option Nat → Option FieldSym
  | [], _, _ => none
  | child :: rest, id, kind =>
    if child.name = id then
      match kind with
      | some k => if Nat.land child.typeFlags k = 0 then getSymbol rest id kind else some child
      | none => some child
    else getSymbol rest id kind

def findSuperSymbol : List (List FieldSym) → UCName → Option Nat → Option FieldSym
  | [], _, _ => none
  | children :: supers, id, kind =>
    match getSymbol children id kind with
    | some s => some s
    | none => findSuperSymbol supers id kind

theorem getSymbol_cons (child : FieldSym) (rest : List FieldSym) (id : UCName)
    (kind : Option Nat) :
    getSymbol (child :: rest) id kind =
      if child.name = id then
        match kind with
        | some k => if Nat.land child.typeFlags k = 0 then getSymbol rest id kind else some child
        | none => some child
      else getSymbol rest id kind := by
  rw [getSymbol.eq_def]

theorem getSymbol_mem (children : List FieldSym) (id : UCName) (kind : Option Nat)
    (c : FieldSym) (h : getSymbol children id kind = some c) : c ∈ children := by
  induction children with
  | nil => simp [getSymbol] at h
  | cons child rest ih =>
    rw [getSymbol_cons] at h
    by_cases hn : child.name = id
    · simp only [hn, if_true] at h
      match kind with
      | none =>
        simp only [Option.some.injEq] at h
        simp [h]
      | some k =>
        simp only at h
        by_cases hk : Nat.land child.typeFlags k = 0
        · simp only [hk, if_true] at h
          exact List.mem_cons_of_mem _ (ih h)
        · simp only [hk, if_false, Option.some.injEq] at h
          simp [h]
    · simp only [hn, if_false] at h
      exact List.mem_cons_of_mem _ (ih h)

theorem getSymbol_name (children : List FieldSym) (id : UCName) (kind : Option Nat)
    (c : FieldSym) (h : getSymbol children id kind = some c) : c.name = id := by
  induction children with
  | nil => simp [getSymbol] at h
  | cons child rest ih =>
    rw [getSymbol_cons] at h
    by_cases hn : child.name = id
    · simp only [hn, if_true] at h
      match kind with
      | none =>
        simp only [Option.some.injEq] at h
        rw [← h]; exact hn
      | some k =>
        simp only at h
        by_cases hk : Nat.land child.typeFlags k = 0
        · simp only [hk, if_true] at h
          exact ih h
        · simp only [hk, if_false, Option.some.injEq] at h
          rw [← h]; exact hn
    · simp only [hn, if_false] at h
      exact ih h

theorem getSymbol_isSome_of_name_mem (children : List FieldSym) (id : UCName)
    (x : FieldSym) (hx : x ∈ children) (hname : x.name = id) :
    ∃ c, getSymbol children id none = some c := by
  induction children with
  | nil => simp at hx
  | cons child rest ih =>
    rw [getSymbol]
    by_cases hn : child.name = id
    · simp [hn]
    · simp only [hn, if_false]
      rcases List.mem_cons.mp hx with rfl | hmem
      · exact absurd hname hn
      · exact ih hmem

/-- Claim C6: for every struct-like symbol with a child whose name equals
that of a member inherited via the super chain, `findSuperSymbol` on that
name returns the local child, never the inherited one — the current struct's
own children are always searched before recursing into the resolved
`super`. -/
theorem claim_C6_shadowing_lookup
    (own : List FieldSym) (supers : List (List FieldSym)) (id : UCName)
    (x : FieldSym) (hx : x ∈ own) (hname : x.name = id) :
    ∃ c, findSuperSymbol (own :: supers) id none = some c ∧ c ∈ own ∧ c.name = id := by
  obtain ⟨c, hc⟩ := getSymbol_isSome_of_name_mem own id x hx hname
  refine ⟨c, ?_, getSymbol_mem own id none c hc, getSymbol_name own id none c hc⟩
  rw [findSuperSymbol, hc]

/-- Claim C6, witness: a struct with a local property `Health` shadowing an
inherited property of the same name resolves the lookup to the local one. -/
theorem claim_C6_shadowing_lookup_witness :
    ∃ c, findSuperSymbol
        ([⟨10, toName "Health", SymKind.propertySym, 1, false⟩]
          :: [[⟨11, toName "Health", SymKind.propertySym, 1, false⟩]])
        (toName "Health") none = some c ∧
      c ∈ [⟨10, toName "Health", SymKind.propertySym, 1, false⟩] ∧
      c.name = toName "Health" :=
  claim_C6_shadowing_lookup
    [⟨10, toName "Health", SymKind.propertySym, 1, false⟩]
    [[⟨11, toName "Health", SymKind.propertySym, 1, false⟩]]
    (toName "Health")
    ⟨10, toName "Health", SymKind.propertySym, 1, false⟩
    (by decide) (by decide)

theorem addAll_eq_reverse_append (decls children : List FieldSym) :
    addAll children decls = decls.reverse ++ children := by
  induction decls generalizing children with
  | nil => simp [addAll]
  | cons d rest ih =>
    show addAll (addSymbol children d) rest = _
    rw [ih (addSymbol children d)]
    simp [addSymbol]

/-- Claim C10: for a struct-like symbol with children chain `c` and a field
symbol `x` not in `c`, `addSymbol x` followed by `removeSymbol x` restores
the chain exactly; `addSymbol` always inserts at the head, so enumeration
visits children in reverse declaration order and name lookup finds the most
recently added symbol of a given name first. -/
theorem claim_C10_add_remove_children
    (children : List FieldSym) (x : FieldSym)
    (hnotin : ∀ c ∈ children, c.sid ≠ x.sid) :
    removeSymbol (addSymbol children x) x = children ∧
    addSymbol children x = x :: children ∧
    (∀ decls : List FieldSym, addAll [] decls = decls.reverse) ∧
    getSymbol (addSymbol children x) x.name none = some x := by
  refine ⟨?_, rfl, ?_, ?_⟩
  · show removeSymbol (x :: children) x = children
    rw [removeSymbol]
    simp
  · intro decls
    rw [addAll_eq_reverse_append]
    simp
  · show getSymbol (x :: children) x.name none = some x
    rw [getSymbol]
    simp

/-- Claim C10, witness: adding a fresh property to a one-element chain and
removing it restores the chain, enumeration is in reverse declaration order,
and lookup finds the newly added symbol first. -/
theorem claim_C10_add_remove_children_witness :
    removeSymbol
        (addSymbol [⟨20, toName "Health", SymKind.propertySym, 1, false⟩]
          ⟨21, toName "Health", SymKind.propertySym, 1, false⟩)
        ⟨21, toName "Health", SymKind.propertySym, 1, false⟩
      = [⟨20, toName "Health", SymKind.propertySym, 1, false⟩] ∧
    addSymbol [⟨20, toName "Health", SymKind.propertySym, 1, false⟩]
        ⟨21, toName "Health", SymKind.propertySym, 1, false⟩
      = ⟨21, toName "Health", SymKind.propertySym, 1, false⟩
          :: [⟨20, toName "Health", SymKind.propertySym, 1, false⟩] ∧
    (∀ decls : List FieldSym, addAll [] decls = decls.reverse) ∧
    getSymbol
        (addSymbol [⟨20, toName "Health", SymKind.propertySym, 1, false⟩]
          ⟨21, toName "Health", SymKind.propertySym, 1, false⟩)
        (toName "Health") none
      = some ⟨21, toName "Health", SymKind.propertySym, 1, false⟩ :=
  claim_C10_add_remove_children
    [⟨20, toName "Health", SymKind.propertySym, 1, false⟩]
    ⟨21, toName "Health", SymKind.propertySym, 1, false⟩
    (by decide)

/-! ## Structural builder: enum members

`UCDocument.enterEnumDecl` walks the declared members with `var count = 0`,
giving each member `value = count++` in declaration order.  The loop body of
the source creates the member symbol, declares it into the enum scope and
registers it in the enum-member map; the produced members are modelled in
declaration order with their assigned values.  The method body contains no
other member creation: in particular it synthesizes no `EnumCount` member,
although the repository's own enum test expects
`enumSymbol.getSymbol(NAME_ENUMCOUNT).value` to equal the member count. -/

structure EnumMember where
  name : UCName
  value : Nat
deriving DecidableEq, Repr

def enumMemberLoop : List String → Nat → List EnumMember
  | [], _ => []
  | idText :: rest, count => ⟨toName idText, count⟩ :: enumMemberLoop rest (count + 1)

def enterEnumDeclMembers (memberIds : List String) : List EnumMember :=
  enumMemberLoop memberIds 0

/-- Claim C2: at the failing input `enum E { A, B, C }` the structural
builder produces exactly the three declared members with sequential values
`A=0, B=1, C=2`, and synthesizes no `EnumCount` member at all — although the
claim (and the repository's own enum test, which expects an implicit
`EnumCount` member whose value equals the member count) says one is
created. -/
theorem claim_C2_enum_numbering_no_enumCount :
    enterEnumDeclMembers ["A", "B", "C"] =
      [⟨toName "A", 0⟩, ⟨toName "B", 1⟩, ⟨toName "C", 2⟩] ∧
    (enterEnumDeclMembers ["A", "B", "C"]).all
      (fun m => m.name ≠ toName "EnumCount") = true := by
  constructor
  · rfl
  · decide

/-! ## Rename preparation

`connection.onPrepareRename` validates the symbol under the cursor before
offering a rename range: a missing symbol, a symbol whose `getTypeFlags()` is
the `Error` flags value, a non-field symbol, a class symbol, an intrinsic
symbol (identifier range is the default range) and a symbol whose name fails
the `^[a-zA-Z_][a-zA-Z_0-9]*$` identifier test are all rejected with a
`ResponseError`; only a symbol passing every check yields its identifier
range. -/

structure RnRange where
  startLine : Nat
  startChar : Nat
  endLine : Nat
  endChar : Nat
deriving DecidableEq, Repr

/-- The shared default range carried by intrinsic symbols (symbols injected
from configuration with no backing source file); the source compares against
it by object identity, and intrinsic symbols are the ones constructed with
this very range. -/
def DEFAULT_RANGE : RnRange := ⟨0, 0, 0, 0⟩

inductive RnKind where
  | classKind
  | fieldKind
  | otherKind
deriving DecidableEq, Repr

structure RnSymbol where
  name : String
  typeFlagsIsError : Bool
  kind : RnKind
  idRange : RnRange
deriving DecidableEq, Repr

def isIdStartChar (c : Char) : Bool :=
  (c ≥ 'a' && c ≤ 'z') || (c ≥ 'A' && c ≤ 'Z') || c = '_'

def isIdChar (c : Char) : Bool :=
  isIdStartChar c || (c ≥ '0' && c ≤ '9')

/-- The `VALID_ID_REGEXP` test `^([a-zA-Z_][a-zA-Z_0-9]*)$`. -/
def validIdTest (s : String) : Bool :=
  match s.data with
  | [] => false
  | c :: rest => isIdStartChar c && rest.all isIdChar

def onPrepareRename (symbol : Option RnSymbol) : Except String RnRange :=
  match symbol with
  | none => Except.error "You cannot rename this element!"
  | some s =>
    if s.typeFlagsIsError then Except.error "You cannot rename this element!"
    else if s.kind = RnKind.fieldKind ∨ s.kind = RnKind.classKind then
      if s.kind = RnKind.classKind then Except.error "You cannot rename a class!"
      else if s.idRange = DEFAULT_RANGE then Except.error "You cannot rename this element!"
      else if ¬ validIdTest s.name then Except.error "You cannot rename this element!"
      else Except.ok s.idRange
    else Except.error "You cannot rename this element!"

/-- Claim C7: a rename-preparation request on a class symbol, on an
intrinsic symbol (identifier range is the default range), or on a symbol
whose name is not a valid identifier (e.g. an operator name) is always
rejected with a descriptive error and never returns a range. -/
theorem claim_C7_prepare_rename_rejections
    (s : RnSymbol)
    (h : s.kind = RnKind.classKind ∨ s.idRange = DEFAULT_RANGE ∨ validIdTest s.name = false) :
    ∃ msg, onPrepareRename (some s) = Except.error msg := by
  rw [onPrepareRename]
  by_cases herr : s.typeFlagsIsError
  · exact ⟨"You cannot rename this element!", by simp [herr]⟩
  · simp only [herr, if_false]
    by_cases hfield : s.kind = RnKind.fieldKind ∨ s.kind = RnKind.classKind
    · simp only [hfield, if_true]
      by_cases hcls : s.kind = RnKind.classKind
      · exact ⟨"You cannot rename a class!", by simp [hcls]⟩
      · simp only [hcls, if_false]
        by_cases hrange : s.idRange = DEFAULT_RANGE
        · exact ⟨"You cannot rename this element!", by simp [hrange]⟩
        · simp only [hrange, if_false]
          rcases h with h | h | h
          · exact absurd h hcls
          · exact absurd h hrange
          · exact ⟨"You cannot rename this element!", by simp [h]⟩
    · exact ⟨"You cannot rename this element!", by simp [hfield]⟩

/-- Claim C7, witness: rename preparation on a class symbol, on an intrinsic
default-ranged symbol and on an operator-named symbol are all rejected. -/
theorem claim_C7_prepare_rename_rejections_witness :
    (∃ msg, onPrepareRename
        (some ⟨"Pickup", false, RnKind.classKind, ⟨3, 6, 3, 12⟩⟩) = Except.error msg) ∧
    (∃ msg, onPrepareRename
        (some ⟨"Object", false, RnKind.fieldKind, DEFAULT_RANGE⟩) = Except.error msg) ∧
    (∃ msg, onPrepareRename
        (some ⟨"+", false, RnKind.fieldKind, ⟨4, 0, 4, 1⟩⟩) = Except.error msg) :=
  ⟨claim_C7_prepare_rename_rejections ⟨"Pickup", false, RnKind.classKind, ⟨3, 6, 3, 12⟩⟩
      (Or.inl (by decide)),
   claim_C7_prepare_rename_rejections ⟨"Object", false, RnKind.fieldKind, DEFAULT_RANGE⟩
      (Or.inr (Or.inl (by decide))),
   claim_C7_prepare_rename_rejections ⟨"+", false, RnKind.fieldKind, ⟨4, 0, 4, 1⟩⟩
      (Or.inr (Or.inr (by decide)))⟩

/-! ## Statement blocks: context-info reset

`UCBlock.index` captures `info.typeFlags` at entry and, after running each
present statement's `index` on the shared context-info object, writes the
captured value back, so that a modification one statement makes to
`typeFlags` never leaks into its next sibling.  A statement's `index`
(together with the expressions it reaches) is modelled as an arbitrary
mutation of the shared info record; array holes (`undefined` statements,
skipped by the loop) are modelled as `none`.  The fields of the context info
other than `typeFlags` are abstracted into `rest`, which the loop does not
touch.  The loop returns both the final info and the list of info values each
executed statement actually received. -/

structure ContextInfo where
  typeFlags : Option Nat
  rest : Nat
deriving DecidableEq, Repr

def blockIndexLoop : List (Option (ContextInfo → ContextInfo)) → Option Nat → ContextInfo →
    ContextInfo × List ContextInfo
  | [], _, info => (info, [])
  | none :: stmts, typeFlags, info => blockIndexLoop stmts typeFlags info
  | some st :: stmts, typeFlags, info =>
    let afterReset := { st info with typeFlags := typeFlags }
    let r := blockIndexLoop stmts typeFlags afterReset
    (r.1, info :: r.2)

def blockIndex (statements : List (Option (ContextInfo → ContextInfo)))
    (info : ContextInfo) : ContextInfo × List ContextInfo :=
  blockIndexLoop statements info.typeFlags info

theorem blockIndexLoop_received (statements : List (Option (ContextInfo → ContextInfo)))
    (typeFlags : Option Nat) (info : ContextInfo) (h : info.typeFlags = typeFlags) :
    ((blockIndexLoop statements typeFlags info).2).all
      (fun received => received.typeFlags == typeFlags) = true := by
  induction statements generalizing info with
  | nil => simp [blockIndexLoop]
  | cons st stmts ih =>
    match st with
    | none =>
      rw [blockIndexLoop]
      exact ih info h
    | some f =>
      rw [blockIndexLoop]
      simp only [List.all_cons, Bool.and_eq_true, beq_iff_eq]
      exact ⟨h, ih _ rfl⟩

/-- Claim C9: `UCBlock.index` indexes every statement of the block against
the same incoming `typeFlags` context: whatever modification a statement's
`index` call makes to the shared context-info `typeFlags` field, it is reset
to the original value before the next statement runs, so every executed
statement receives the block's incoming `typeFlags`. -/
theorem claim_C9_block_typeflags_reset
    (statements : List (Option (ContextInfo → ContextInfo))) (info : ContextInfo) :
    ((blockIndex statements info).2).all
      (fun received => received.typeFlags == info.typeFlags) = true :=
  blockIndexLoop_received statements info.typeFlags info rfl

/-! ## Super links: struct indexing and state override

`UCStructSymbol.index` indexes the `extends` type and then assigns its
referent to `super` — but only when `super` is not already set ("Ensure that
we don't overwrite super assignment from our descendant class").
`UCStateSymbol.index` runs first (it is the descendant override): when
`super` is unset and the enclosing class has a resolved superclass, it looks
the state's name up through that superclass's hierarchy with
`findSuperSymbol`; if the symbol found is a state, it records a reference to
it and sets both `overriddenState` and `super` before delegating to the
struct-level indexing above.  The children loop of `UCStructSymbol.index`
touches none of these fields and is not modelled.  An extends clause is
modelled by the resolution outcome `ref` its indexed type reference would
report via `getRef()`. -/

structure ExtendsTypeModel where
  ref : Option FieldSym
deriving DecidableEq, Repr

structure StructLinkState where
  name : UCName
  sup : Option FieldSym
  overriddenState : Option FieldSym
  extendsType : Option ExtendsTypeModel
deriving DecidableEq, Repr

def structIndexSuper (s : StructLinkState) : StructLinkState :=
  match s.extendsType with
  | none => s
  | some t => if s.sup.isNone then { s with sup := t.ref } else s

def stateIndexOverride (s : StructLinkState)
    (contextSuper : Option (List (List FieldSym))) :
    StructLinkState × List FieldSym :=
  if s.sup.isNone then
    match contextSuper with
    | none => (s, [])
    | some chain =>
      match findSuperSymbol chain s.name none with
      | some overridden =>
        if overridden.kind = SymKind.stateSym then
          ({ s with overriddenState := some overridden, sup := some overridden },
            [overridden])
        else (s, [])
      | none => (s, [])
  else (s, [])

def stateIndex (s : StructLinkState) (contextSuper : Option (List (List FieldSym))) :
    StructLinkState × List FieldSym :=
  let afterOverride := stateIndexOverride s contextSuper
  (structIndexSuper afterOverride.1, afterOverride.2)

/-- X's own child in the counterexample: a non-state field named `Idle`
shadowing the inherited state of the same name. -/
def shadowPropIdle : FieldSym := ⟨1, toName "Idle", SymKind.propertySym, 1, false⟩

/-- The state named `Idle` declared further up the hierarchy (in W, the
superclass of X). -/
def shadowStateIdle : FieldSym := ⟨2, toName "Idle", SymKind.stateSym, 4096, false⟩

/-- The scope chain of X (the resolved superclass of the enclosing class Y):
X's own children first, then the children of X's super W. -/
def shadowChain : List (List FieldSym) := [[shadowPropIdle], [shadowStateIdle]]

/-- Y's state `Idle`, freshly built: no explicit extends clause, no links. -/
def shadowYIdle : StructLinkState := ⟨toName "Idle", none, none, none⟩

/-- Claim C3, counterexample: the superclass hierarchy of the enclosing
class does contain a state of the same (case-insensitive) name `Idle`, yet
indexing the state sets neither `super` nor `overriddenState` and records no
reference — because the name lookup finds the nearer non-state field `Idle`
first and the override only applies when the found symbol is a state. -/
theorem claim_C3_counterexample_shadowed_state :
    (∃ scope ∈ shadowChain, ∃ st ∈ scope,
      st.kind = SymKind.stateSym ∧ st.name = toName "IDLE") ∧
    (stateIndex shadowYIdle (some shadowChain)).1.sup = none ∧
    (stateIndex shadowYIdle (some shadowChain)).1.overriddenState = none ∧
    (stateIndex shadowYIdle (some shadowChain)).2 = [] := by
  decide

/-- Claim C3 (amended): for every state symbol S with no explicit extends
clause whose enclosing class has a resolved superclass, if looking S's name
up through that superclass's hierarchy (own children first, then the
resolved super chain, first name match wins) yields a state symbol, then
indexing S sets S.super (and S.overriddenState) to that inherited state and
records a reference to it; e.g. for base class X with state Idle and class Y
extends X redeclaring state Idle, indexing Y yields Y.Idle.super == X.Idle. -/
theorem claim_C3_amended_state_override_linking
    (s : StructLinkState) (chain : List (List FieldSym)) (overridden : FieldSym)
    (hsup : s.sup = none) (hext : s.extendsType = none)
    (hfind : findSuperSymbol chain s.name none = some overridden)
    (hstate : overridden.kind = SymKind.stateSym) :
    (stateIndex s (some chain)).1.sup = some overridden ∧
    (stateIndex s (some chain)).1.overriddenState = some overridden ∧
    (stateIndex s (some chain)).2 = [overridden] := by
  have hover : stateIndexOverride s (some chain) =
      ({ s with overriddenState := some overridden, sup := some overridden },
        [overridden]) := by
    rw [stateIndexOverride]
    simp [hsup, hfind, hstate]
  rw [stateIndex, hover]
  simp [structIndexSuper, hext]

/-- Claim C3 (amended), witness: base class X owning state `Idle` (scope
chain with that one child), and Y's state `Idle` with no explicit extends;
indexing links Y.Idle.super to X.Idle and records a reference to it. -/
theorem claim_C3_amended_state_override_linking_witness :
    (stateIndex ⟨toName "Idle", none, none, none⟩
        (some [[⟨3, toName "Idle", SymKind.stateSym, 4096, false⟩]])).1.sup
      = some ⟨3, toName "Idle", SymKind.stateSym, 4096, false⟩ ∧
    (stateIndex ⟨toName "Idle", none, none, none⟩
        (some [[⟨3, toName "Idle", SymKind.stateSym, 4096, false⟩]])).1.overriddenState
      = some ⟨3, toName "Idle", SymKind.stateSym, 4096, false⟩ ∧
    (stateIndex ⟨toName "Idle", none, none, none⟩
        (some [[⟨3, toName "Idle", SymKind.stateSym, 4096, false⟩]])).2
      = [⟨3, toName "Idle", SymKind.stateSym, 4096, false⟩] :=
  claim_C3_amended_state_override_linking
    ⟨toName "Idle", none, none, none⟩
    [[⟨3, toName "Idle", SymKind.stateSym, 4096, false⟩]]
    ⟨3, toName "Idle", SymKind.stateSym, 4096, false⟩
    rfl rfl (by decide) rfl

/-- Claim C8: during `UCStructSymbol.index` the referent of the extends type
is assigned to the symbol's `super` link only when `super` is not already
set; in particular a state's implicitly linked overridden super state,
established before extends resolution, is never overwritten by the
subsequent extends-type resolution. -/
theorem claim_C8_super_not_overwritten
    (s : StructLinkState) (x overridden : FieldSym) (chain : List (List FieldSym)) :
    (s.sup = some x → (structIndexSuper s).sup = some x) ∧
    (s.sup = none → ∀ t, s.extendsType = some t → (structIndexSuper s).sup = t.ref) ∧
    (s.sup = none → findSuperSymbol chain s.name none = some overridden →
      overridden.kind = SymKind.stateSym →
      (stateIndex s (some chain)).1.sup = some overridden) := by
  refine ⟨?_, ?_, ?_⟩
  · intro hx
    rw [structIndexSuper]
    match hcase : s.extendsType with
    | none => exact hx
    | some t => simp [hx]
  · intro hnone t ht
    rw [structIndexSuper, ht]
    simp [hnone]
  · intro hnone hfind hstate
    have hover : stateIndexOverride s (some chain) =
        ({ s with overriddenState := some overridden, sup := some overridden },
          [overridden]) := by
      rw [stateIndexOverride]
      simp [hnone, hfind, hstate]
    rw [stateIndex, hover]
    rw [structIndexSuper]
    match hcase : s.extendsType with
    | none => rfl
    | some t => simp

/-- Claim C8, witness: a state `Idle` whose extends type resolves to a
different symbol keeps its implicitly linked overridden state; an
extends-resolved struct with `super` still unset receives the extends
referent. -/
theorem claim_C8_super_not_overwritten_witness :
    ((⟨toName "Idle", some ⟨3, toName "Idle", SymKind.stateSym, 4096, false⟩, none,
        some ⟨some ⟨9, toName "Other", SymKind.stateSym, 4096, false⟩⟩⟩ : StructLinkState).sup
        = some ⟨3, toName "Idle", SymKind.stateSym, 4096, false⟩ →
      (structIndexSuper ⟨toName "Idle",
          some ⟨3, toName "Idle", SymKind.stateSym, 4096, false⟩, none,
          some ⟨some ⟨9, toName "Other", SymKind.stateSym, 4096, false⟩⟩⟩).sup
        = some ⟨3, toName "Idle", SymKind.stateSym, 4096, false⟩) ∧
    ((⟨toName "Idle", some ⟨3, toName "Idle", SymKind.stateSym, 4096, false⟩, none,
        some ⟨some ⟨9, toName "Other", SymKind.stateSym, 4096, false⟩⟩⟩ : StructLinkState).sup
        = none →
      ∀ t, (⟨toName "Idle", some ⟨3, toName "Idle", SymKind.stateSym, 4096, false⟩, none,
          some ⟨some ⟨9, toName "Other", SymKind.stateSym, 4096, false⟩⟩⟩
            : StructLinkState).extendsType = some t →
        (structIndexSuper ⟨toName "Idle",
            some ⟨3, toName "Idle", SymKind.stateSym, 4096, false⟩, none,
            some ⟨some ⟨9, toName "Other", SymKind.stateSym, 4096, false⟩⟩⟩).sup = t.ref) ∧
    ((⟨toName "Idle", some ⟨3, toName "Idle", SymKind.stateSym, 4096, false⟩, none,
        some ⟨some ⟨9, toName "Other", SymKind.stateSym, 4096, false⟩⟩⟩ : StructLinkState).sup
        = none →
      findSuperSymbol [[⟨3, toName "Idle", SymKind.stateSym, 4096, false⟩]]
          (⟨toName "Idle", some ⟨3, toName "Idle", SymKind.stateSym, 4096, false⟩, none,
            some ⟨some ⟨9, toName "Other", SymKind.stateSym, 4096, false⟩⟩⟩
              : StructLinkState).name none
        = some ⟨3, toName "Idle", SymKind.stateSym, 4096, false⟩ →
      (⟨3, toName "Idle", SymKind.stateSym, 4096, false⟩ : FieldSym).kind = SymKind.stateSym →
      (stateIndex ⟨toName "Idle",
          some ⟨3, toName "Idle", SymKind.stateSym, 4096, false⟩, none,
          some ⟨some ⟨9, toName "Other", SymKind.stateSym, 4096, false⟩⟩⟩
          (some [[⟨3, toName "Idle", SymKind.stateSym, 4096, false⟩]])).1.sup
        = some ⟨3, toName "Idle", SymKind.stateSym, 4096, false⟩) :=
  claim_C8_super_not_overwritten
    ⟨toName "Idle", some ⟨3, toName "Idle", SymKind.stateSym, 4096, false⟩, none,
      some ⟨some ⟨9, toName "Other", SymKind.stateSym, 4096, false⟩⟩⟩
    ⟨3, toName "Idle", SymKind.stateSym, 4096, false⟩
    ⟨3, toName "Idle", SymKind.stateSym, 4096, false⟩
    [[⟨3, toName "Idle", SymKind.stateSym, 4096, false⟩]]

/-! ## Type references: resolution dispatch

`UCObjectTypeSymbol.index` resolves a type reference by dispatching on the
expected type-kind hint (`validTypeKind`): Package searches only the Packages
table (no deep search); Class and Interface search the global Symbols table
with deep search enabled; Enum, Struct and State search only the current
context's `findSuperSymbol` chain; any other (or missing) hint tries the
global table first and falls back to the context chain; and under the
generic `Type` hint a candidate that is not a field symbol usable as a type
(`isType()`) is discarded, leaving the reference unresolved.  A resolved
symbol is then set as the reference (registering a reference record), and the
base type (of a parametrized type reference) is indexed recursively.  The
guard of the source returns early when a reference is already initialized or
no context was given.

`UCTypeKind` is the hint enumeration of the source; the constructors
`String`, `Name`, `Bool`, `Array`, `Function`, `Type` and `None` are renamed
`StringT`, `NameT`, `BoolT`, `ArrayT`, `FunctionT`, `Typ` and `NoneT` to
avoid clashing with Lean names.  The Symbol Tables implementation is not
among the given sources; `tableFindSymbol` is modelled from the spec:
`findSymbol(name, deepSearch)` is an exact interned-name lookup, and
`deepSearch` additionally searches classes declared `within` another class
(the `nested` namespace). -/

inductive UCTypeKind where
  | Float
  | Int
  | Byte
  | StringT
  | NameT
  | BoolT
  | ArrayT
  | Delegate
  | Object
  | Package
  | Class
  | Interface
  | Enum
  | State
  | Struct
  | Property
  | FunctionT
  | Typ
  | NoneT
  | Error
deriving DecidableEq, Repr

structure SymbolsTableModel where
  top : List FieldSym
  nested : List FieldSym
deriving Repr

def tableFindSymbol (t : SymbolsTableModel) (id : UCName) (deepSearch : Bool) :
    Option FieldSym :=
  match t.top.find? (fun s => s.name == id) with
  | some s => some s
  | none => if deepSearch then t.nested.find? (fun s => s.name == id) else none

structure IndexEnv where
  packagesTable : SymbolsTableModel
  symbolsTable : SymbolsTableModel
deriving Repr

inductive ObjectTypeSym : Type where
  | mk (id : UCName) (validTypeKind : Option UCTypeKind) (reference : Option FieldSym)
      (baseType : Option ObjectTypeSym)
deriving Repr

def ObjectTypeSym.getRef : ObjectTypeSym → Option FieldSym
  | .mk _ _ r _ => r

/-- The `default` arm of the dispatch:
`SymbolsTable.findSymbol(id, true) || context.findSuperSymbol(id)`. -/
def defaultTypeLookup (env : IndexEnv) (ctx : List (List FieldSym)) (id : UCName) :
    Option FieldSym :=
  match tableFindSymbol env.symbolsTable id true with
  | some s => some s
  | none => findSuperSymbol ctx id none

/-- `UCObjectTypeSymbol.index`: returns the type reference after indexing,
paired with the targets of the reference records registered by
`setReference` (the resolved symbol, then whatever the base type
registered). -/
def ObjectTypeSym.indexT : ObjectTypeSym → IndexEnv → Option (List (List FieldSym)) →
    ObjectTypeSym × List FieldSym
  | .mk id vtk ref base, env, context =>
    match ref, context with
    | some r, _ => (.mk id vtk (some r) base, [])
    | none, none => (.mk id vtk none base, [])
    | none, some ctx =>
      let dispatched : Option FieldSym :=
        match vtk with
        | some UCTypeKind.Package => tableFindSymbol env.packagesTable id false
        | some UCTypeKind.Class => tableFindSymbol env.symbolsTable id true
        | some UCTypeKind.Interface => tableFindSymbol env.symbolsTable id true
        | some UCTypeKind.Enum => findSuperSymbol ctx id none
        | some UCTypeKind.Struct => findSuperSymbol ctx id none
        | some UCTypeKind.State => findSuperSymbol ctx id none
        | _ => defaultTypeLookup env ctx id
      let symbol : Option FieldSym :=
        if vtk = some UCTypeKind.Typ then
          match dispatched with
          | some s => if s.kind.isFieldSymbol && s.isType then some s else none
          | none => none
        else dispatched
      match base with
      | some b =>
        let baseResult := b.indexT env (some ctx)
        (.mk id vtk symbol (some baseResult.1), symbol.toList ++ baseResult.2)
      | none => (.mk id vtk symbol none, symbol.toList)

/-- Claim C4: type-reference resolution dispatches on the expected type-kind
hint: a Package hint searches only the Packages table; a Class or Interface
hint searches the global Symbols table with deep search enabled; an Enum,
Struct or State hint searches only the current context's
inheritance+containment chain (never the global table); with no hint the
global table is tried first with the context chain as fallback; and under
the generic Type hint a candidate that is not usable as a type is rejected,
leaving the reference unresolved. -/
theorem claim_C4_type_resolution_dispatch (id : UCName) (base : Option ObjectTypeSym)
    (env : IndexEnv) (ctx : List (List FieldSym)) :
    ((ObjectTypeSym.mk id (some UCTypeKind.Package) none base).indexT env (some ctx)).1.getRef
      = tableFindSymbol env.packagesTable id false ∧
    ((ObjectTypeSym.mk id (some UCTypeKind.Class) none base).indexT env (some ctx)).1.getRef
      = tableFindSymbol env.symbolsTable id true ∧
    ((ObjectTypeSym.mk id (some UCTypeKind.Interface) none base).indexT env (some ctx)).1.getRef
      = tableFindSymbol env.symbolsTable id true ∧
    ((ObjectTypeSym.mk id (some UCTypeKind.Enum) none base).indexT env (some ctx)).1.getRef
      = findSuperSymbol ctx id none ∧
    ((ObjectTypeSym.mk id (some UCTypeKind.Struct) none base).indexT env (some ctx)).1.getRef
      = findSuperSymbol ctx id none ∧
    ((ObjectTypeSym.mk id (some UCTypeKind.State) none base).indexT env (some ctx)).1.getRef
      = findSuperSymbol ctx id none ∧
    ((ObjectTypeSym.mk id none none base).indexT env (some ctx)).1.getRef
      = defaultTypeLookup env ctx id ∧
    ((ObjectTypeSym.mk id (some UCTypeKind.Typ) none base).indexT env (some ctx)).1.getRef
      = (defaultTypeLookup env ctx id).bind
          (fun s => if s.kind.isFieldSymbol && s.isType then some s else none) := by
  refine ⟨?_, ?_, ?_, ?_, ?_, ?_, ?_, ?_⟩ <;>
    cases base <;>
      simp [ObjectTypeSym.indexT, ObjectTypeSym.getRef, Option.bind] <;>
        cases hdl : defaultTypeLookup env ctx id <;> simp [hdl]

/-! ## Reference Index and invalidation

The global `IndexedReferences` map sends a resolved target's stable hash
(qualified id) to the set of reference records pointing at it; a document
additionally records, in `indexReferencesMade`, the references it created
during its last indexing, keyed by the same hashes.  Both maps are modelled
as association lists with unique keys (JavaScript `Map`s), sets as lists of
reference records, and a record's object identity by `rid`.
`unsetIndexedReferences(qualifiedId, refs)` deletes each given record from
the entry's set and deletes the entry itself when its set becomes empty;
`UCDocument.invalidate()` discards the class tree, clears the diagnostic
nodes, unsets every entry of the document's own map from the global index
and finally clears that map. -/

structure SymbolRef where
  rid : Nat
  locUri : String
deriving DecidableEq, Repr

abbrev RefIndex := List (String × List SymbolRef)

def mapFind : List (String × List SymbolRef) → String → Option (List SymbolRef)
  | [], _ => none
  | entry :: rest, key => if entry.1 = key then some entry.2 else mapFind rest key

def mapDelete : RefIndex → String → RefIndex
  | [], _ => []
  | entry :: rest, key =>
    if entry.1 = key then mapDelete rest key else entry :: mapDelete rest key

def mapSetVal : RefIndex → String → List SymbolRef → RefIndex
  | [], _, _ => []
  | entry :: rest, key, v =>
    if entry.1 = key then (entry.1, v) :: mapSetVal rest key v
    else entry :: mapSetVal rest key v

/-- References stored under a key (the empty set when the key is absent). -/
def lookupRefs (idx : List (String × List SymbolRef)) (key : String) : List SymbolRef :=
  (mapFind idx key).getD []

def unsetIndexedReferences (idx : RefIndex) (qualifiedId : String)
    (refs : List SymbolRef) : RefIndex :=
  match mapFind idx qualifiedId with
  | none => idx
  | some indexedRefs =>
    let remaining := indexedRefs.filter (fun r => decide (r ∉ refs))
    if remaining = [] then mapDelete idx qualifiedId
    else mapSetVal idx qualifiedId remaining

structure DocRefState where
  hasClass : Bool
  nodeCount : Nat
  indexReferencesMade : List (String × List SymbolRef)
deriving DecidableEq, Repr

def documentInvalidate (doc : DocRefState) (idx : RefIndex) : DocRefState × RefIndex :=
  let cleared := doc.indexReferencesMade.foldl
    (fun acc entry => unsetIndexedReferences acc entry.1 entry.2) idx
  (⟨false, 0, []⟩, cleared)

theorem mapFind_mapDelete (idx : RefIndex) (q k : String) :
    mapFind (mapDelete idx q) k = if k = q then none else mapFind idx k := by
  induction idx with
  | nil => simp [mapDelete, mapFind]
  | cons entry rest ih =>
    rw [mapDelete]
    by_cases he : entry.1 = q
    · rw [if_pos he, ih]
      by_cases hk : k = q
      · simp [hk]
      · rw [if_neg hk, if_neg hk, mapFind]
        have : ¬ entry.1 = k := by
          intro hek
          exact hk (by rw [← hek, he])
        rw [if_neg this]
    · rw [if_neg he, mapFind, mapFind]
      by_cases hek : entry.1 = k
      · have hkq : ¬ k = q := by
          intro hkq
          exact he (by rw [hek, hkq])
        rw [if_pos hek, if_neg hkq, if_pos hek]
      · rw [if_neg hek, if_neg hek, ih]

theorem mapFind_mapSetVal (idx : RefIndex) (q k : String) (v : List SymbolRef) :
    mapFind (mapSetVal idx q v) k =
      if k = q then (mapFind idx q).map (fun _ => v) else mapFind idx k := by
  induction idx with
  | nil => simp [mapSetVal, mapFind]
  | cons entry rest ih =>
    rw [mapSetVal]
    by_cases he : entry.1 = q
    · by_cases hk : k = q
      · simp [mapFind, he, hk, ih]
      · have hek : ¬ entry.1 = k := by
          intro h
          exact hk (h.symm.trans he)
        have hqk : ¬ q = k := fun h => hk h.symm
        simp [mapFind, he, hek, hk, hqk, ih]
    · by_cases hek : entry.1 = k
      · have hkq : ¬ k = q := by
          intro hkq
          exact he (hek.trans hkq)
        simp [mapFind, he, hek, hkq, ih]
      · simp [mapFind, he, hek, ih]

theorem lookupRefs_unset (idx : RefIndex) (q k : String) (refs : List SymbolRef) :
    lookupRefs (unsetIndexedReferences idx q refs) k =
      if k = q then (lookupRefs idx k).filter (fun r => decide (r ∉ refs))
      else lookupRefs idx k := by
  rw [unsetIndexedReferences]
  match hfind : mapFind idx q with
  | none =>
    by_cases hk : k = q
    · subst hk
      rw [if_pos rfl, lookupRefs, hfind]
      simp [lookupRefs, hfind]
    · rw [if_neg hk]
  | some indexedRefs =>
    simp only
    by_cases hrem : indexedRefs.filter (fun r => decide (r ∉ refs)) = []
    · rw [if_pos hrem, lookupRefs, mapFind_mapDelete]
      by_cases hk : k = q
      · subst hk
        rw [if_pos rfl, if_pos rfl, lookupRefs, hfind]
        simp only [Option.getD_none, Option.getD_some]
        symm
        rw [List.eq_nil_iff_forall_not_mem]
        intro a hmemf
        have h2 := List.mem_filter.mp hmemf
        have h3 : a ∈ List.filter (fun r => decide (r ∉ refs)) indexedRefs :=
          List.mem_filter.mpr h2
        rw [hrem] at h3
        simp at h3
      · rw [if_neg hk, if_neg hk, lookupRefs]
    · rw [if_neg hrem, lookupRefs, mapFind_mapSetVal]
      by_cases hk : k = q
      · subst hk
        rw [if_pos rfl, if_pos rfl, hfind, lookupRefs, hfind]
        simp
      · rw [if_neg hk, if_neg hk, lookupRefs]

theorem unset_keeps_nonempty (idx : RefIndex) (q : String) (refs : List SymbolRef)
    (hidx : ∀ e ∈ idx, e.2 ≠ []) :
    ∀ e ∈ unsetIndexedReferences idx q refs, e.2 ≠ [] := by
  rw [unsetIndexedReferences]
  match hfind : mapFind idx q with
  | none => exact hidx
  | some indexedRefs =>
    simp only
    by_cases hrem : indexedRefs.filter (fun r => decide (r ∉ refs)) = []
    · rw [if_pos hrem]
      intro e he
      have : ∀ (l : RefIndex), e ∈ mapDelete l q → e ∈ l := by
        intro l
        induction l with
        | nil => simp [mapDelete]
        | cons entry rest ih =>
          rw [mapDelete]
          by_cases hq : entry.1 = q
          · rw [if_pos hq]
            intro hmem
            exact List.mem_cons_of_mem _ (ih hmem)
          · rw [if_neg hq]
            intro hmem
            rcases List.mem_cons.mp hmem with rfl | hmem'
            · exact List.mem_cons_self _ _
            · exact List.mem_cons_of_mem _ (ih hmem')
      exact hidx e (this idx he)
    · rw [if_neg hrem]
      intro e he
      have : ∀ (l : RefIndex), e ∈ mapSetVal l q (indexedRefs.filter (fun r => decide (r ∉ refs))) →
          e ∈ l ∨ e.2 = indexedRefs.filter (fun r => decide (r ∉ refs)) := by
        intro l
        induction l with
        | nil => simp [mapSetVal]
        | cons entry rest ih =>
          rw [mapSetVal]
          by_cases hq : entry.1 = q
          · rw [if_pos hq]
            intro hmem
            rcases List.mem_cons.mp hmem with rfl | hmem'
            · exact Or.inr rfl
            · rcases ih hmem' with h | h
              · exact Or.inl (List.mem_cons_of_mem _ h)
              · exact Or.inr h
          · rw [if_neg hq]
            intro hmem
            rcases List.mem_cons.mp hmem with rfl | hmem'
            · exact Or.inl (List.mem_cons_self _ _)
            · rcases ih hmem' with h | h
              · exact Or.inl (List.mem_cons_of_mem _ h)
              · exact Or.inr h
      rcases this idx he with h | h
      · exact hidx e h
      · rw [h]
        exact hrem

theorem mapFind_eq_none_of_not_mem (l : List (String × List SymbolRef)) (k : String)
    (h : k ∉ l.map Prod.fst) : mapFind l k = none := by
  induction l with
  | nil => rfl
  | cons e r ih =>
    rw [mapFind]
    simp only [List.map_cons, List.mem_cons, not_or] at h
    rw [if_neg (fun he => h.1 he.symm)]
    exact ih h.2

theorem lookupRefs_fold_unset (entries : List (String × List SymbolRef)) (idx : RefIndex)
    (k : String) (hnodup : (entries.map Prod.fst).Nodup) :
    lookupRefs (entries.foldl (fun acc entry => unsetIndexedReferences acc entry.1 entry.2) idx) k
      = (lookupRefs idx k).filter (fun r => decide (r ∉ lookupRefs entries k)) := by
  induction entries generalizing idx with
  | nil =>
    simp only [List.foldl_nil]
    have : lookupRefs ([] : List (String × List SymbolRef)) k = [] := rfl
    rw [this]
    simp
  | cons entry rest ih =>
    simp only [List.map_cons, List.nodup_cons] at hnodup
    obtain ⟨hq, hrest⟩ := hnodup
    simp only [List.foldl_cons]
    rw [ih _ hrest, lookupRefs_unset]
    by_cases hk : k = entry.1
    · rw [if_pos hk]
      have habs : mapFind rest k = none := by
        rw [hk]
        exact mapFind_eq_none_of_not_mem rest entry.1 hq
      have h1 : lookupRefs rest k = [] := by rw [lookupRefs, habs]; rfl
      have h3 : lookupRefs (entry :: rest) k = entry.2 := by
        rw [lookupRefs, mapFind, if_pos hk.symm]
        rfl
      rw [h1, h3]
      simp
    · rw [if_neg hk]
      have h3 : lookupRefs (entry :: rest) k = lookupRefs rest k := by
        rw [lookupRefs, mapFind, if_neg (fun h => hk h.symm), lookupRefs]
      rw [h3]

theorem mapFind_mem (l : List (String × List SymbolRef)) (k : String)
    (v : List SymbolRef) (h : mapFind l k = some v) : (k, v) ∈ l := by
  induction l with
  | nil => simp [mapFind] at h
  | cons entry rest ih =>
    rw [mapFind] at h
    by_cases he : entry.1 = k
    · rw [if_pos he] at h
      have : entry = (k, v) := by
        cases entry
        simp only [Option.some.injEq] at h
        simp only at he
        rw [he, h]
      rw [← this]
      exact List.mem_cons_self _ _
    · rw [if_neg he] at h
      exact List.mem_cons_of_mem _ (ih h)

/-- Claim C1: invalidating a document removes from the global Reference
Index exactly the reference records recorded in the document's own
references-made map (an index entry whose set becomes empty is deleted),
clears that map, and discards the class symbol tree; afterwards no reference
record made by the document remains anywhere in the global index.  The
hypotheses state the standing invariants: the document's map has unique keys
(a `Map`), no index entry holds an empty set, and a record made by the
document is registered in the global index only under the key the document
recorded it under (the two views of §3's reference-record invariant). -/
theorem claim_C1_invalidate_removes_references
    (doc : DocRefState) (idx : RefIndex)
    (hnodup : (doc.indexReferencesMade.map Prod.fst).Nodup)
    (hne : ∀ e ∈ idx, e.2 ≠ [])
    (hcons : ∀ e ∈ doc.indexReferencesMade, ∀ e2 ∈ idx, e.1 ≠ e2.1 →
      ∀ r ∈ e.2, r ∉ e2.2) :
    (∀ k r, r ∈ lookupRefs (documentInvalidate doc idx).2 k ↔
      (r ∈ lookupRefs idx k ∧ r ∉ lookupRefs doc.indexReferencesMade k)) ∧
    (∀ e ∈ (documentInvalidate doc idx).2, e.2 ≠ []) ∧
    (documentInvalidate doc idx).1.indexReferencesMade = [] ∧
    (documentInvalidate doc idx).1.hasClass = false ∧
    (∀ k2 r, (∃ k, r ∈ lookupRefs doc.indexReferencesMade k) →
      r ∉ lookupRefs (documentInvalidate doc idx).2 k2) := by
  have hmain : ∀ k, lookupRefs (documentInvalidate doc idx).2 k
      = (lookupRefs idx k).filter
          (fun r => decide (r ∉ lookupRefs doc.indexReferencesMade k)) := by
    intro k
    exact lookupRefs_fold_unset doc.indexReferencesMade idx k hnodup
  have hmem : ∀ k r, r ∈ lookupRefs (documentInvalidate doc idx).2 k ↔
      (r ∈ lookupRefs idx k ∧ r ∉ lookupRefs doc.indexReferencesMade k) := by
    intro k r
    rw [hmain k]
    simp [List.mem_filter]
  refine ⟨hmem, ?_, rfl, rfl, ?_⟩
  · show ∀ e ∈ doc.indexReferencesMade.foldl
        (fun acc entry => unsetIndexedReferences acc entry.1 entry.2) idx, e.2 ≠ []
    have : ∀ (entries : List (String × List SymbolRef)) (start : RefIndex),
        (∀ e ∈ start, e.2 ≠ []) →
        ∀ e ∈ entries.foldl (fun acc entry => unsetIndexedReferences acc entry.1 entry.2) start,
          e.2 ≠ [] := by
      intro entries
      induction entries with
      | nil => intro start hstart; simpa using hstart
      | cons entry rest ih =>
        intro start hstart
        simp only [List.foldl_cons]
        exact ih _ (unset_keeps_nonempty start entry.1 entry.2 hstart)
    exact this doc.indexReferencesMade idx hne
  · intro k2 r hr hmem2
    obtain ⟨k, hk⟩ := hr
    rw [hmem k2 r] at hmem2
    obtain ⟨hidx2, hnotdoc2⟩ := hmem2
    by_cases hkk : k2 = k
    · subst hkk
      exact hnotdoc2 hk
    · obtain ⟨v, hv⟩ : ∃ v, mapFind doc.indexReferencesMade k = some v := by
        rw [lookupRefs] at hk
        match hfind : mapFind doc.indexReferencesMade k with
        | some v => exact ⟨v, rfl⟩
        | none => rw [hfind] at hk; simp at hk
      obtain ⟨v2, hv2⟩ : ∃ v2, mapFind idx k2 = some v2 := by
        rw [lookupRefs] at hidx2
        match hfind : mapFind idx k2 with
        | some v2 => exact ⟨v2, rfl⟩
        | none => rw [hfind] at hidx2; simp at hidx2
      have hrv : r ∈ v := by rw [lookupRefs, hv] at hk; exact hk
      have hrv2 : r ∈ v2 := by rw [lookupRefs, hv2] at hidx2; exact hidx2
      exact hcons (k, v) (mapFind_mem _ _ _ hv) (k2, v2) (mapFind_mem _ _ _ hv2)
        (fun h => hkk (h.symm)) r hrv hrv2

/-- Claim C1, witness: a two-entry global index where the document recorded
one of the two records under key `x`; invalidation removes exactly that
record, prunes nothing else, clears the document, and leaves no record of
the document anywhere. -/
theorem claim_C1_invalidate_removes_references_witness :
    (∀ k r, r ∈ lookupRefs
        (documentInvalidate ⟨true, 0, [("x", [⟨1, "d"⟩])]⟩
          [("x", [⟨1, "d"⟩, ⟨2, "e"⟩]), ("y", [⟨3, "e"⟩])]).2 k ↔
      (r ∈ lookupRefs [("x", [⟨1, "d"⟩, ⟨2, "e"⟩]), ("y", [⟨3, "e"⟩])] k ∧
        r ∉ lookupRefs
          (DocRefState.mk true 0 [("x", [⟨1, "d"⟩])]).indexReferencesMade k)) ∧
    (∀ e ∈ (documentInvalidate ⟨true, 0, [("x", [⟨1, "d"⟩])]⟩
        [("x", [⟨1, "d"⟩, ⟨2, "e"⟩]), ("y", [⟨3, "e"⟩])]).2, e.2 ≠ []) ∧
    (documentInvalidate ⟨true, 0, [("x", [⟨1, "d"⟩])]⟩
        [("x", [⟨1, "d"⟩, ⟨2, "e"⟩]), ("y", [⟨3, "e"⟩])]).1.indexReferencesMade = [] ∧
    (documentInvalidate ⟨true, 0, [("x", [⟨1, "d"⟩])]⟩
        [("x", [⟨1, "d"⟩, ⟨2, "e"⟩]), ("y", [⟨3, "e"⟩])]).1.hasClass = false ∧
    (∀ k2 r, (∃ k, r ∈ lookupRefs
        (DocRefState.mk true 0 [("x", [⟨1, "d"⟩])]).indexReferencesMade k) →
      r ∉ lookupRefs (documentInvalidate ⟨true, 0, [("x", [⟨1, "d"⟩])]⟩
        [("x", [⟨1, "d"⟩, ⟨2, "e"⟩]), ("y", [⟨3, "e"⟩])]).2 k2) :=
  claim_C1_invalidate_removes_references
    ⟨true, 0, [("x", [⟨1, "d"⟩])]⟩
    [("x", [⟨1, "d"⟩, ⟨2, "e"⟩]), ("y", [⟨3, "e"⟩])]
    (by decide)
    (by decide)
    (by decide)

/-! ## Analyzer

`UCObjectTypeSymbol.analyze` first analyzes the base type, then pushes an
"unrecognized type" node into `document.nodes` when the reference is
unresolved, or an "Expected a ..." node when the expected kind hint
disagrees with the kind of the resolved symbol (the `instanceof` checks of
the source).  `UCDocument.analyze` runs `this.class.analyze` — the tree walk
over the class's type references, modelled from the spec (§4.6) since the
old-era struct `analyze` bodies are not among the given sources: it visits
each type reference once and collects what each pushes — appending the
produced diagnostics to the document's existing `nodes` (which it never
clears), and returns `getNodes()`, the per-node diagnostics of the whole
list.  The analyzer makes no call into the Reference Index; the index is
threaded through unchanged. -/

inductive DiagNode where
  | syntaxErr (msg : String)
  | unrecognizedType (id : UCName)
  | semanticError (id : UCName) (msg : String)
deriving DecidableEq, Repr

def ObjectTypeSym.analyzeT : ObjectTypeSym → List DiagNode
  | .mk id vtk ref base =>
    (match base with
      | some b => b.analyzeT
      | none => []) ++
    (match ref with
      | none => [DiagNode.unrecognizedType id]
      | some s =>
        match vtk with
        | some UCTypeKind.Class =>
          if s.kind = SymKind.classSym then [] else [DiagNode.semanticError id "Expected a class!"]
        | some UCTypeKind.State =>
          if s.kind = SymKind.stateSym then [] else [DiagNode.semanticError id "Expected a state!"]
        | some UCTypeKind.Enum =>
          if s.kind = SymKind.enumSym then [] else [DiagNode.semanticError id "Expected an enum!"]
        | some UCTypeKind.Struct =>
          if s.kind = SymKind.scriptStructSym then []
          else [DiagNode.semanticError id "Expected a struct!"]
        | _ => [])

/-- Modelled from the spec: the Analyzer's tree walk over the resolved class
visits each type reference once, pushing that reference's diagnostics. -/
def classAnalyzeWalk (refs : List ObjectTypeSym) : List DiagNode :=
  match refs with
  | [] => []
  | t :: rest => t.analyzeT ++ classAnalyzeWalk rest

structure DocAnalyzeState where
  cls : Option (List ObjectTypeSym)
  nodes : List DiagNode

/-- `UCDocument.analyze`: `undefined` without a class; otherwise run the
class walk (appending into `this.nodes`) and return `getNodes()`.  Returns
the diagnostic output, the document state afterwards, and the (untouched)
global Reference Index. -/
def documentAnalyze (doc : DocAnalyzeState) (idx : RefIndex) :
    Option (List DiagNode) × DocAnalyzeState × RefIndex :=
  match doc.cls with
  | none => (none, doc, idx)
  | some refs =>
    (some (doc.nodes ++ classAnalyzeWalk refs),
      { doc with nodes := doc.nodes ++ classAnalyzeWalk refs }, idx)

/-- The document of the counterexample: its class tree holds one type
reference `Pickup` left unresolved by indexing; no other nodes. -/
def analyzeDoc : DocAnalyzeState :=
  ⟨some [ObjectTypeSym.mk (toName "Pickup") none none none], []⟩

/-- Claim C5, counterexample: running the Analyzer twice on the same
unchanged, fully indexed document does not produce identical diagnostic
output — on a document whose class has one unresolved type reference the
first run reports the diagnostic once and the second run reports it twice,
because `analyze` appends into `document.nodes` without clearing it. -/
theorem claim_C5_counterexample_analyze_accumulates :
    (documentAnalyze analyzeDoc []).1
      = some [DiagNode.unrecognizedType (toName "Pickup")] ∧
    (documentAnalyze (documentAnalyze analyzeDoc []).2.1 []).1
      = some [DiagNode.unrecognizedType (toName "Pickup"),
          DiagNode.unrecognizedType (toName "Pickup")] ∧
    (documentAnalyze (documentAnalyze analyzeDoc []).2.1 []).1
      ≠ (documentAnalyze analyzeDoc []).1 := by
  refine ⟨rfl, rfl, ?_⟩
  decide

/-- Claim C5 (amended): running the Analyzer on a fully indexed document is
deterministic, leaves the class symbol tree and the global Reference Index
unchanged, and appends its diagnostics to the document's node list without
clearing it; hence the second run's output equals the first run's output
followed by a second copy of the analysis diagnostics, and the two outputs
are identical exactly when the analysis of the tree produces no
diagnostics. -/
theorem claim_C5_amended_analyze_rerun
    (doc : DocAnalyzeState) (idx : RefIndex) (refs : List ObjectTypeSym)
    (h : doc.cls = some refs) :
    (documentAnalyze doc idx).1 = some (doc.nodes ++ classAnalyzeWalk refs) ∧
    (documentAnalyze doc idx).2.1.cls = doc.cls ∧
    (documentAnalyze doc idx).2.2 = idx ∧
    (documentAnalyze (documentAnalyze doc idx).2.1 idx).1
      = some (doc.nodes ++ classAnalyzeWalk refs ++ classAnalyzeWalk refs) ∧
    (documentAnalyze (documentAnalyze doc idx).2.1 idx).2.2 = idx ∧
    (classAnalyzeWalk refs = [] →
      (documentAnalyze (documentAnalyze doc idx).2.1 idx).1 = (documentAnalyze doc idx).1) := by
  refine ⟨?_, ?_, ?_, ?_, ?_, ?_⟩
  · simp [documentAnalyze, h]
  · simp [documentAnalyze, h]
  · simp [documentAnalyze, h]
  · simp [documentAnalyze, h]
  · simp [documentAnalyze, h]
  · intro hw
    simp [documentAnalyze, h, hw]

/-- Claim C5 (amended), witness: on the one-unresolved-reference document the
two runs behave exactly as the amended claim states. -/
theorem claim_C5_amended_analyze_rerun_witness :
    (documentAnalyze analyzeDoc []).1
      = some (analyzeDoc.nodes
          ++ classAnalyzeWalk [ObjectTypeSym.mk (toName "Pickup") none none none]) ∧
    (documentAnalyze analyzeDoc []).2.1.cls = analyzeDoc.cls ∧
    (documentAnalyze analyzeDoc []).2.2 = [] ∧
    (documentAnalyze (documentAnalyze analyzeDoc []).2.1 []).1
      = some (analyzeDoc.nodes
          ++ classAnalyzeWalk [ObjectTypeSym.mk (toName "Pickup") none none none]
          ++ classAnalyzeWalk [ObjectTypeSym.mk (toName "Pickup") none none none]) ∧
    (documentAnalyze (documentAnalyze analyzeDoc []).2.1 []).2.2 = [] ∧
    (classAnalyzeWalk [ObjectTypeSym.mk (toName "Pickup") none none none] = [] →
      (documentAnalyze (documentAnalyze analyzeDoc []).2.1 []).1
        = (documentAnalyze analyzeDoc []).1) :=
  claim_C5_amended_analyze_rerun analyzeDoc []
    [ObjectTypeSym.mk (toName "Pickup") none none none] rfl
